import Mathlib

/-!
Shallow embedding of the MindTheQApp core (`src/app/utils/instructor.py` and the
training callback of `src/app/pages/2-noise-training.py`).

Modelling conventions:

* PennyLane quantum functions queue gate applications onto a tape; we embed a
  quantum function as the list of operations it queues (`Op`) together with the
  measurement it returns (`Ret`).  Rotation angles and channel probabilities are
  real numbers.
* Execution of the tape on the `default.mixed` device, automatic
  differentiation, the Adam update rule and the seeded random generator are
  external library facilities; they enter the development as abstract
  parameters (`E`, `G`, `A`, `rngVals`).  All theorems hold for every choice of
  these parameters.
* NumPy float arithmetic is idealised as real arithmetic; qubit/layer counts
  are natural numbers and the parameter-shape expression `n_qubits*3 - 1` uses
  truncated subtraction (which agrees with Python for `n_qubits ≥ 1`).
* Fallible Python code (the shape assertion in `Model._circuit`, the attribute
  dispatch in `Model.__init__`) is embedded with `Except`.
-/

namespace MTQ

/-- An operation queued on the PennyLane tape: the rotation gates and the five
noise channels used by `instructor.py`.  Each carries its angle (or channel
probability) and the wire(s) it acts on. -/
inductive Op : Type where
  | RY : ℝ → ℕ → Op
  | RX : ℝ → ℕ → Op
  | RZ : ℝ → ℕ → Op
  | CRX : ℝ → ℕ → ℕ → Op
  | BitFlip : ℝ → ℕ → Op
  | PhaseFlip : ℝ → ℕ → Op
  | AmplitudeDamping : ℝ → ℕ → Op
  | PhaseDamping : ℝ → ℕ → Op
  | DepolarizingChannel : ℝ → ℕ → Op

/-- The measurement returned at the end of `Model._circuit`: either the full
state (`qml.state()`) or the expectation value of `qml.PauliZ` on a wire. -/
inductive Ret : Type where
  | state : Ret
  | expvalPauliZ : ℕ → Ret
deriving DecidableEq

/-- Static circuit configuration stored by `Model.__init__` (the fields
`n_qubits`, `n_layers`, `state_vector`). -/
structure Model : Type where
  n_qubits : ℕ
  n_layers : ℕ
  state_vector : Bool

/-- Translation of `Model._n_params_circ19`: the required weight shape
`(n_layers, n_qubits*3 - 1)`, stored as `self.n_params`. -/
def Model.n_params (m : Model) : ℕ × ℕ :=
  (m.n_layers, m.n_qubits * 3 - 1)

/-- Translation of `Model._pqc19`.  The Python code walks a cursor `w_idx`
through the flat weight row `w` while queueing gates: for each qubit `q` an
`RX` then an `RZ` (two entries), then for each qubit `q > 0` a `CRX` from `q`
to `(q+1) % n_qubits` (one entry).  The two `for` loops become two `foldl`s
over `List.range n_qubits`, each threading the pair (queued ops, `w_idx`). -/
def pqc19 (m : Model) (w : ℕ → ℝ) : List Op :=
  let s1 : List Op × ℕ :=
    (List.range m.n_qubits).foldl
      (fun acc q => (acc.1 ++ [Op.RX (w acc.2) q, Op.RZ (w (acc.2 + 1)) q], acc.2 + 2))
      ([], 0)
  let s2 : List Op × ℕ :=
    (List.range m.n_qubits).foldl
      (fun acc q =>
        if 0 < q then
          (acc.1 ++ [Op.CRX (w acc.2) q ((q + 1) % m.n_qubits)], acc.2 + 1)
        else acc)
      s1
  s2.1

/-- Helper for the first loop of `_pqc19`: folding the RX/RZ step over
`List.range n` from an arbitrary accumulator appends one RX/RZ pair per qubit,
consuming weight entries `k0, k0+1, k0+2, …` in order. -/
theorem pqc19_singles_fold (w : ℕ → ℝ) (n : ℕ) : ∀ (l0 : List Op) (k0 : ℕ),
    (List.range n).foldl
      (fun acc q => (acc.1 ++ [Op.RX (w acc.2) q, Op.RZ (w (acc.2 + 1)) q], acc.2 + 2))
      (l0, k0)
    = (l0 ++ (List.range n).flatMap
        (fun q => [Op.RX (w (k0 + 2 * q)) q, Op.RZ (w (k0 + 2 * q + 1)) q]),
       k0 + 2 * n) := by
  induction n with
  | zero => simp
  | succ n ih =>
    intro l0 k0
    rw [List.range_succ, List.foldl_append, ih]
    simp only [List.foldl_cons, List.foldl_nil, List.flatMap_append, List.flatMap_cons,
      List.flatMap_nil, List.append_nil, List.append_assoc]
    rfl

/-- Helper for the second loop of `_pqc19`: folding the guarded CRX step over
`List.range n` skips qubit 0 and, for qubits `1, …, n-1`, appends one CRX per
qubit, consuming one weight entry each, starting at the cursor `k0`. -/
theorem pqc19_crx_fold (w : ℕ → ℝ) (nq n : ℕ) : ∀ (l0 : List Op) (k0 : ℕ),
    (List.range n).foldl
      (fun acc q =>
        if 0 < q then (acc.1 ++ [Op.CRX (w acc.2) q ((q + 1) % nq)], acc.2 + 1) else acc)
      (l0, k0)
    = (l0 ++ (List.range (n - 1)).map
        (fun i => Op.CRX (w (k0 + i)) (i + 1) ((i + 2) % nq)),
       k0 + (n - 1)) := by
  induction n with
  | zero => simp
  | succ n ih =>
    intro l0 k0
    rw [List.range_succ, List.foldl_append, ih]
    match n with
    | 0 => simp
    | Nat.succ k =>
      simp only [List.foldl_cons, List.foldl_nil, Nat.succ_sub_one]
      rw [if_pos (Nat.succ_pos k), List.range_succ, List.map_append]
      simp only [List.map_cons, List.map_nil, List.append_assoc]
      rfl

/-- C3: the Circuit19 ansatz layer applies, for each qubit `q` in order
`0..n_qubits-1`, two single-qubit rotations about two different axes (an `RX`
then an `RZ`) consuming weight entries `2q` and `2q+1`, and then, for each
qubit `q = i+1` with `i` ranging over `0..n_qubits-2` in order, one two-qubit
controlled rotation `CRX` linking qubit `q` to qubit `(q+1) % n_qubits`,
consuming weight entry `2*n_qubits + i`.  The consumption order is exactly all
single-qubit pairs first (entries `0..2n-1`), then all controlled rotations
(entries `2n..3n-2`). -/
theorem pqc19_weight_consumption_order (n L : ℕ) (sv : Bool) (w : ℕ → ℝ) :
    pqc19 ⟨n, L, sv⟩ w
      = ((List.range n).flatMap fun q => [Op.RX (w (2 * q)) q, Op.RZ (w (2 * q + 1)) q])
        ++ ((List.range (n - 1)).map fun i =>
              Op.CRX (w (2 * n + i)) (i + 1) ((i + 1 + 1) % n)) := by
  show ((List.range n).foldl _ ((List.range n).foldl _ ([], 0))).1 = _
  rw [pqc19_singles_fold, pqc19_crx_fold]
  simp

/-- Translation of `Model.iec`: angle encoding that applies `RY(x)` to every
qubit. -/
def iec (m : Model) (x : ℝ) : List Op :=
  (List.range m.n_qubits).map (fun q => Op.RY x q)

/-- The weight argument as it arrives at `Model._circuit` at run time: either a
plain Python list (`isList = true`, as passed by the Dash pages straight from
session storage) or a NumPy array with a `shape`.  `entries l j` is `w[l][j]`. -/
structure WInput : Type where
  isList : Bool
  shape : ℕ × ℕ
  entries : ℕ → ℕ → ℝ

/-- The failure raised by the `assert` in `Model._circuit` when the weight
shape does not match `self.n_params` (the spec calls it `ShapeError`). -/
inductive ShapeError : Type where
  | mismatch : (expected got : ℕ × ℕ) → ShapeError
deriving DecidableEq

/-- The condition of the `assert` in `Model._circuit`:
`isinstance(w, list) or w.shape == self.n_params`.  Note that a list-typed
weight argument passes the check whatever its shape. -/
def circuitCheck (m : Model) (w : WInput) : Bool :=
  w.isList || (w.shape == m.n_params)

/-- The operations queued by the layer loop of `Model._circuit`: for each layer
`l` the encoding `iec(x)` (same `x` every layer), the ansatz `pqc19(w[l])`, and
then per qubit the five noise channels in the order BitFlip, PhaseFlip,
AmplitudeDamping, PhaseDamping, DepolarizingChannel.  The nested `for` loops
become nested `foldl`s over `List.range`. -/
def circuitTape (m : Model) (w : ℕ → ℕ → ℝ) (x bf pf ad pd dp : ℝ) : List Op :=
  (List.range m.n_layers).foldl
    (fun ops l =>
      ops ++ iec m x ++ pqc19 m (w l) ++
        (List.range m.n_qubits).foldl
          (fun acc q =>
            acc ++ [Op.BitFlip bf q, Op.PhaseFlip pf q, Op.AmplitudeDamping ad q,
              Op.PhaseDamping pd q, Op.DepolarizingChannel dp q])
          [])
    []

/-- The measurement returned by `Model._circuit` after the layer loop. -/
def Model.ret (m : Model) : Ret :=
  if m.state_vector then Ret.state else Ret.expvalPauliZ 0

/-- Translation of `Model._circuit` (and of `Model.__call__`, which just
invokes the QNode): check the weight shape, then queue the layered tape and
return the chosen measurement. -/
def circuitE (m : Model) (w : WInput) (x bf pf ad pd dp : ℝ) :
    Except ShapeError (List Op × Ret) :=
  if circuitCheck m w then
    Except.ok (circuitTape m w.entries x bf pf ad pd dp, m.ret)
  else
    Except.error (ShapeError.mismatch m.n_params w.shape)

/-- Folding list-append of a block per element from an initial accumulator is
the initial accumulator followed by the concatenation of the blocks. -/
theorem foldl_append_eq_flatMap {α β : Type} (g : α → List β) (l : List α) :
    ∀ (init : List β),
      l.foldl (fun acc a => acc ++ g a) init = init ++ l.flatMap g := by
  induction l with
  | nil => simp
  | cons a l ih =>
    intro init
    simp only [List.foldl_cons, ih, List.flatMap_cons, List.append_assoc]

/-- C2: for every weight input passing the shape check and every scalar input
`x`, `Model._circuit` queues, for layers `l = 0..n_layers-1` in order, the data
encoding with the same scalar `x`, then the ansatz on weight row `w[l]`, then
for each qubit the five noise channels in the fixed order bit-flip, phase-flip,
amplitude-damping, phase-damping, depolarizing; after all layers it returns the
full state when `state_vector` is set and otherwise the expectation value of
the fixed single-qubit observable `PauliZ` on qubit 0. -/
theorem circuit_layer_structure (m : Model) (w : WInput) (x bf pf ad pd dp : ℝ)
    (h : circuitCheck m w = true) :
    circuitE m w x bf pf ad pd dp
      = Except.ok
          ((List.range m.n_layers).flatMap (fun l =>
            iec m x ++ pqc19 m (w.entries l) ++
              (List.range m.n_qubits).flatMap (fun q =>
                [Op.BitFlip bf q, Op.PhaseFlip pf q, Op.AmplitudeDamping ad q,
                  Op.PhaseDamping pd q, Op.DepolarizingChannel dp q])),
           if m.state_vector then Ret.state else Ret.expvalPauliZ 0) := by
  rw [circuitE, if_pos h]
  rw [circuitTape]
  have hnoise :
      (List.range m.n_qubits).foldl
        (fun acc q =>
          acc ++ [Op.BitFlip bf q, Op.PhaseFlip pf q, Op.AmplitudeDamping ad q,
            Op.PhaseDamping pd q, Op.DepolarizingChannel dp q])
        ([] : List Op)
      = (List.range m.n_qubits).flatMap (fun q =>
          [Op.BitFlip bf q, Op.PhaseFlip pf q, Op.AmplitudeDamping ad q,
            Op.PhaseDamping pd q, Op.DepolarizingChannel dp q]) := by
    rw [foldl_append_eq_flatMap]
    rfl
  simp only [hnoise]
  have hlayers := foldl_append_eq_flatMap
    (fun l => iec m x ++ pqc19 m (w.entries l) ++
      (List.range m.n_qubits).flatMap (fun q =>
        [Op.BitFlip bf q, Op.PhaseFlip pf q, Op.AmplitudeDamping ad q,
          Op.PhaseDamping pd q, Op.DepolarizingChannel dp q]))
    (List.range m.n_layers) []
  simp only [List.append_assoc] at hlayers ⊢
  rw [hlayers]
  simp [Model.ret]

/-- Witness for C2 at a concrete configuration: one qubit, one layer, a
well-shaped array input. -/
theorem circuit_layer_structure_witness :
    circuitCheck ⟨1, 1, false⟩ ⟨false, (1, 2), fun _ _ => (0 : ℝ)⟩ = true ∧
    circuitE ⟨1, 1, false⟩ ⟨false, (1, 2), fun _ _ => (0 : ℝ)⟩ 0 0 0 0 0 0
      = Except.ok
          ((List.range 1).flatMap (fun l =>
            iec ⟨1, 1, false⟩ 0 ++ pqc19 ⟨1, 1, false⟩ ((fun _ _ => (0 : ℝ)) l) ++
              (List.range 1).flatMap (fun q =>
                [Op.BitFlip 0 q, Op.PhaseFlip 0 q, Op.AmplitudeDamping 0 q,
                  Op.PhaseDamping 0 q, Op.DepolarizingChannel 0 q])),
           if false then Ret.state else Ret.expvalPauliZ 0) :=
  ⟨by decide, circuit_layer_structure ⟨1, 1, false⟩ ⟨false, (1, 2), fun _ _ => 0⟩
    0 0 0 0 0 0 (by decide)⟩

/-- The failure raised during `Model.__init__` when the ansatz dispatch
`getattr(self, f"_pqc{circuit_type}")` finds no such attribute (an
`AttributeError`; the spec calls it `ConfigurationError`). -/
inductive ConfigError : Type where
  | unknownAnsatz : ℤ → ConfigError
deriving DecidableEq

/-- Translation of the fallible part of `Model.__init__`.  The constructor
stores the qubit/layer counts unchecked, then resolves `_pqc{circuit_type}`
and `_n_params_circ{circuit_type}` by attribute lookup; the class defines these
attributes only for id 19, so any other id raises, and no statement in the
constructor validates `n_qubits` or `n_layers` (the external
`qml.device("default.mixed", wires=n_qubits)` call performs no such validation
either for the counts exercised here).  Counts are integers, matching Python. -/
def modelInitCheck (n_qubits n_layers circuit_type : ℤ) : Except ConfigError Unit :=
  if circuit_type = 19 then Except.ok () else Except.error (ConfigError.unknownAnsatz circuit_type)

/-- Counterexample to C8 as stated: constructing a Model with a non-positive
layer count (`n_layers = 0`) and the supported ansatz id 19 succeeds — no
ConfigurationError is raised, contradicting the claim that every non-positive
qubit or layer count is rejected at construction. -/
theorem modelInit_accepts_nonpositive_layers :
    (0 : ℤ) ≤ 0 ∧ modelInitCheck 2 0 19 = Except.ok () :=
  ⟨le_refl 0, rfl⟩

/-- C8 (amended): Model construction fails with a ConfigurationError exactly
for the unsupported ansatz ids (every id other than 19); qubit and layer
counts, including non-positive ones, are never validated, so with ansatz id 19
construction succeeds for every pair of counts. -/
theorem modelInit_rejects_only_unknown_ansatz (n_qubits n_layers circuit_type : ℤ) :
    (circuit_type ≠ 19 →
      modelInitCheck n_qubits n_layers circuit_type
        = Except.error (ConfigError.unknownAnsatz circuit_type)) ∧
    (circuit_type = 19 →
      modelInitCheck n_qubits n_layers circuit_type = Except.ok ()) := by
  constructor
  · intro h
    rw [modelInitCheck, if_neg h]
  · intro h
    rw [modelInitCheck, if_pos h]

/-- Witness for C8's amended theorem: ansatz id 7 is rejected, ansatz id 19 is
accepted, at concrete counts. -/
theorem modelInit_rejects_only_unknown_ansatz_witness :
    modelInitCheck 2 4 7 = Except.error (ConfigError.unknownAnsatz 7) ∧
    modelInitCheck 2 4 19 = Except.ok () :=
  ⟨(modelInit_rejects_only_unknown_ansatz 2 4 7).1 (by decide),
   (modelInit_rejects_only_unknown_ansatz 2 4 19).2 rfl⟩

/-- NumPy `np.max` of a 1-D array: the `max`-fold of its entries (0 for the
empty array, which does not occur in this code). -/
noncomputable def np_max : List ℝ → ℝ
  | [] => 0
  | x :: xs => xs.foldl max x

/-- NumPy `np.linspace a b n`: `n` evenly spaced samples from `a` to `b`
inclusive, sample `i` at `a + (b - a) * i / (n - 1)`. -/
noncomputable def linspace (a b : ℝ) (n : ℕ) : List ℝ :=
  (List.range n).map (fun i : ℕ => a + (b - a) * (i : ℝ) / ((n : ℝ) - 1))

/-- NumPy `np.linalg.norm` of a 1-D array: the Euclidean norm. -/
noncomputable def np_norm (l : List ℝ) : ℝ :=
  Real.sqrt ((l.map (fun t => t ^ 2)).sum)

/-- NumPy `np.mean` of a 1-D array. -/
noncomputable def np_mean (l : List ℝ) : ℝ :=
  l.sum / l.length

/-- Modelled from the spec (§3 Optimizer State): the external PennyLane
`AdamOptimizer` keeps a fixed step size and internal first/second moment
accumulators with a step counter.  Its update rule stays abstract; operations
that apply it take it as a parameter. -/
structure AdamState : Type where
  stepsize : ℝ
  fm : ℕ → ℕ → ℝ
  sm : ℕ → ℕ → ℝ
  t : ℕ

/-- The state held by an `Instructor` instance: the fields set by
`Instructor.__init__` (`max_freq`, `model`, `x_d`, `y_d`, `weights`, `opt`). -/
structure Instructor : Type where
  max_freq : ℕ
  model : Model
  x_d : List ℝ
  y_d : List ℝ
  weights : WInput
  opt : AdamState

/-- Translation of `Instructor.__init__`.  `rngVals seed i j` models the
`[0,1)` draws of the seeded external generator `np.random.default_rng(seed)`;
everything else is translated directly: `max_freq = n_qubits * n_layers`, the
domain `[-π, π]`, the target frequencies `{1,2,3}`, the Nyquist sample count
`int(np.ceil(2 * max|domain| * max ω))`, the uniform grid `x_d`, the targets
`y_d`, the initial weights `2π(1 - 2·rand)` of shape `(n_layers, n_qubits*3-1)`
and the Adam optimizer with step size 0.05. -/
noncomputable def instructorInit (rngVals : ℕ → ℕ → ℕ → ℝ)
    (n_qubits n_layers seed : ℕ) : Instructor :=
  let x_domain : List ℝ := [-1 * Real.pi, 1 * Real.pi]
  let omega_d : List ℝ := [1, 2, 3]
  let n_d : ℕ := ⌈2 * np_max (x_domain.map (fun t => |t|)) * np_max omega_d⌉₊
  let x_d : List ℝ := linspace (x_domain.getD 0 0) (x_domain.getD 1 0) n_d
  let y_fct : ℝ → ℝ := fun x =>
    1 / np_norm omega_d * ((omega_d.map (fun ω => Real.cos (ω * x))).sum)
  { max_freq := n_qubits * n_layers
    model := ⟨n_qubits, n_layers, false⟩
    x_d := x_d
    y_d := x_d.map y_fct
    weights := ⟨false, (n_layers, n_qubits * 3 - 1),
      fun i j => 2 * Real.pi * (1 - 2 * rngVals seed i j)⟩
    opt := ⟨0.05, fun _ _ => 0, fun _ _ => 0, 0⟩ }

/-- The Nyquist-consistent sample count of `Instructor.__init__` evaluates to
19: the domain is `[-π, π]`, the frequency set is `{1, 2, 3}`, and
`⌈2 · π · 3⌉ = ⌈6π⌉ = 19`. -/
theorem nyquist_count_eq_19 :
    (⌈2 * np_max (([-1 * Real.pi, 1 * Real.pi]).map (fun t => |t|)) *
        np_max [1, 2, 3]⌉₊ : ℕ) = 19 := by
  have hdom : np_max (([-1 * Real.pi, 1 * Real.pi]).map (fun t => |t|)) = Real.pi := by
    simp [np_max, abs_of_nonneg Real.pi_pos.le]
  have homega : np_max [(1 : ℝ), 2, 3] = 3 := by
    rw [np_max]
    norm_num
  rw [hdom, homega, Nat.ceil_eq_iff (by norm_num : (19 : ℕ) ≠ 0)]
  constructor
  · push_cast
    nlinarith [Real.pi_gt_three]
  · push_cast
    nlinarith [Real.pi_lt_d2]

/-- C7: for every seed (and every draw of the external generator), the
Instructor builds the training domain as the uniform 19-point grid over
`[-π, π]` — 19 being `⌈2 · max|domain| · max{1,2,3}⌉ = ⌈6π⌉` — and the target
at each grid point `x` is `(1/‖(1,2,3)‖) · (cos x + cos 2x + cos 3x)`, with
`‖(1,2,3)‖ = √14`. -/
theorem instructor_training_domain (rngVals : ℕ → ℕ → ℕ → ℝ)
    (n_qubits n_layers seed : ℕ) :
    (instructorInit rngVals n_qubits n_layers seed).x_d.length = 19 ∧
    (instructorInit rngVals n_qubits n_layers seed).x_d
      = (List.range 19).map (fun i : ℕ => -Real.pi + 2 * Real.pi * (i : ℝ) / 18) ∧
    (instructorInit rngVals n_qubits n_layers seed).y_d
      = (instructorInit rngVals n_qubits n_layers seed).x_d.map
          (fun x => 1 / Real.sqrt 14 *
            (Real.cos x + Real.cos (2 * x) + Real.cos (3 * x))) := by
  have hx : (instructorInit rngVals n_qubits n_layers seed).x_d
      = (List.range 19).map (fun i : ℕ => -Real.pi + 2 * Real.pi * (i : ℝ) / 18) := by
    show linspace (List.getD _ 0 0) (List.getD _ 1 0) _ = _
    rw [nyquist_count_eq_19, linspace]
    refine List.map_congr_left (fun i _ => ?_)
    simp only [List.getD_cons_zero, List.getD_cons_succ]
    push_cast
    ring
  refine ⟨by rw [hx, List.length_map, List.length_range], hx, ?_⟩
  show List.map _ _ = _
  have hnorm : np_norm [(1 : ℝ), 2, 3] = Real.sqrt 14 := by
    rw [np_norm]
    norm_num
  refine List.map_congr_left (fun x _ => ?_)
  rw [hnorm]
  norm_num
  ring

/-- Resolution of the optional `weights` argument of `Instructor.forward`:
`if weights is not None: w = weights else: w = self.weights`. -/
def resolveForwardW (s : Instructor) (weights : Option WInput) : WInput :=
  match weights with
  | some w => w
  | none => s.weights

/-- Translation of `Instructor.forward`, with the instance state passed
explicitly (the body assigns to no instance field, so the state comes back
unchanged).  `E tape ret` models the external `default.mixed` device executing
the queued tape and producing the measurement's value; the QNode broadcasts
over the input array `x_d`, producing one scalar per domain point in input
order, after the single shape assertion of `Model._circuit`. -/
def forwardS (E : List Op → Ret → ℝ) (s : Instructor) (x_d : List ℝ)
    (weights : Option WInput) (bf pf ad pd dp : ℝ) :
    Instructor × Except ShapeError (List ℝ) :=
  let w := resolveForwardW s weights
  if circuitCheck s.model w then
    (s, Except.ok (x_d.map (fun x =>
      E (circuitTape s.model w.entries x bf pf ad pd dp) s.model.ret)))
  else
    (s, Except.error (ShapeError.mismatch s.model.n_params w.shape))

/-- Translation of `Instructor.cost`: mean squared error between the forward
pass over the stored training domain `self.x_d` and the supplied targets. -/
noncomputable def costS (E : List Op → Ret → ℝ) (s : Instructor) (w : WInput) (y_d : List ℝ)
    (bf pf ad pd dp : ℝ) : Instructor × Except ShapeError ℝ :=
  let fr := forwardS E s s.x_d (some w) bf pf ad pd dp
  (fr.1, fr.2.map (fun y_pred =>
    np_mean (List.zipWith (fun a b => (a - b) ^ 2) y_d y_pred)))

/-- The value of `Instructor.cost` at an entry function `w` that already passed
the shape assertion: mean squared error of the forward pass against `y_d`.
This is the objective the optimizer differentiates inside `step`. -/
noncomputable def costVal (E : List Op → Ret → ℝ) (s : Instructor)
    (w : ℕ → ℕ → ℝ) (y_d : List ℝ) (bf pf ad pd dp : ℝ) : ℝ :=
  np_mean (List.zipWith (fun a b => (a - b) ^ 2) y_d
    (s.x_d.map (fun x => E (circuitTape s.model w x bf pf ad pd dp) s.model.ret)))

/-- NumPy `np.array` applied to a (rectangular) nested Python list, as done at
the top of `Instructor.step`: the result is an array (`isList = false`) whose
shape is (row count, length of the first row). -/
noncomputable def listToArray (l : List (List ℝ)) : WInput :=
  ⟨false, (l.length, l.headI.length), fun i j => (l.getD i []).getD j 0⟩

/-- The weight resolution at the top of `Instructor.step`: an empty argument is
replaced by the instance's stored initial weights, and `np.array` leaves the
stored array unchanged while converting a nonempty list to an array. -/
noncomputable def resolveStepW (s : Instructor) (l : List (List ℝ)) : WInput :=
  if l.length = 0 then s.weights else listToArray l

/-- Translation of `Instructor.step`.  `opt.step_and_cost(self.cost, w,
y_d=self.y_d, …)` is the external PennyLane optimizer call; per its contract it
computes the gradient of the cost at the supplied weights (evaluating the cost
once, at the pre-step weights), applies one Adam update, and returns the
updated weights together with that pre-step cost.  The autodiff gradient `G`
and the Adam application `A` (which also advances the moment accumulators) are
abstract; the shape assertion of `Model._circuit` fires during the cost
evaluation, before any update. -/
noncomputable def stepS (E : List Op → Ret → ℝ)
    (G : ((ℕ → ℕ → ℝ) → ℝ) → (ℕ → ℕ → ℝ) → ℕ → ℕ → ℝ)
    (A : AdamState → (ℕ → ℕ → ℝ) → (ℕ → ℕ → ℝ) → AdamState × (ℕ → ℕ → ℝ))
    (s : Instructor) (l : List (List ℝ)) (bf pf ad pd dp : ℝ) :
    Instructor × Except ShapeError ((ℕ → ℕ → ℝ) × ℝ) :=
  let w0 := resolveStepW s l
  if circuitCheck s.model w0 then
    let f := fun v => costVal E s v s.y_d bf pf ad pd dp
    let res := A s.opt (G f w0.entries) w0.entries
    ({ s with opt := res.1 }, Except.ok (res.2, f w0.entries))
  else
    (s, Except.error (ShapeError.mismatch s.model.n_params w0.shape))

/-- Modelled from the spec (§4.3 Spectrum Analyzer): the external
`pennylane.fourier.coefficients` plus `_extract_data_and_labels` compute the
discrete Fourier coefficients of a scalar function over one period — a DFT
over `2d+1` uniform samples, truncated to integer frequency bins `-d..+d` —
and return the real and imaginary parts per bin (bin `k` holds frequency
`k - d`). -/
noncomputable def coefficientsDFT (f : ℝ → ℝ) (d : ℕ) : List (ℝ × ℝ) :=
  (List.range (2 * d + 1)).map (fun k : ℕ =>
    ((1 / ((2 * d + 1 : ℕ) : ℝ)) * ((List.range (2 * d + 1)).map (fun j : ℕ =>
        f (2 * Real.pi * (j : ℝ) / ((2 * d + 1 : ℕ) : ℝ)) *
          Real.cos (((k : ℝ) - (d : ℝ)) *
            (2 * Real.pi * (j : ℝ) / ((2 * d + 1 : ℕ) : ℝ))))).sum,
     -(1 / ((2 * d + 1 : ℕ) : ℝ)) * ((List.range (2 * d + 1)).map (fun j : ℕ =>
        f (2 * Real.pi * (j : ℝ) / ((2 * d + 1 : ℕ) : ℝ)) *
          Real.sin (((k : ℝ) - (d : ℝ)) *
            (2 * Real.pi * (j : ℝ) / ((2 * d + 1 : ℕ) : ℝ))))).sum))

/-- The spectrum record assembled by `Instructor.calc_hist`: per-bin real and
imaginary coefficient parts and their combined magnitudes. -/
structure HistData : Type where
  real : List ℝ
  imag : List ℝ
  comb : List ℝ

/-- The successful payload of `Instructor.calc_hist`: the Fourier analysis of
the forward function at entry weights `w` that passed the shape assertion —
`data_len` is the number of bins of the extracted real part, and
`comb = sqrt(real² + imag²)` elementwise. -/
noncomputable def calcHistData (E : List Op → Ret → ℝ) (s : Instructor)
    (w : ℕ → ℕ → ℝ) (bf pf ad pd dp : ℝ) : ℕ × HistData :=
  let coeffs := coefficientsDFT
    (fun x => E (circuitTape s.model w x bf pf ad pd dp) s.model.ret)
    s.max_freq
  let re := coeffs.map Prod.fst
  let im := coeffs.map Prod.snd
  (re.length, ⟨re, im, List.zipWith (fun r i => Real.sqrt (r ^ 2 + i ^ 2)) re im⟩)

/-- Translation of `Instructor.calc_hist`: analyze
`partial(self.forward, weights=w, …)` over frequencies up to `self.max_freq`
and return `(data_len, data)`.  The shape assertion surfaces when the analyzer
first evaluates `forward`; no instance field is assigned. -/
noncomputable def calcHistS (E : List Op → Ret → ℝ) (s : Instructor)
    (w : WInput) (bf pf ad pd dp : ℝ) :
    Instructor × Except ShapeError (ℕ × HistData) :=
  if circuitCheck s.model w then
    (s, Except.ok (calcHistData E s w.entries bf pf ad pd dp))
  else
    (s, Except.error (ShapeError.mismatch s.model.n_params w.shape))

/-- The per-session training log of `2-noise-training.py`
(`storage-noise-training-proc`): the loss sequence and the last weight array in
its serialized (nested list) form. -/
structure PageLog : Type where
  loss : List ℝ
  weights : List (List ℝ)

/-- Serialization of a weight array of the given shape back into the nested
list stored in the session log. -/
def serializeWeights (w : ℕ → ℕ → ℝ) (shape : ℕ × ℕ) : List (List ℝ) :=
  (List.range shape.1).map (fun i => (List.range shape.2).map (fun j => w i j))

/-- Translation of the `training` callback of `2-noise-training.py`: default
the log to empty, reset both `loss` and `weights` to empty when the loss
length strictly exceeds 30, construct a fresh Instructor from the session's
main data, run one `step` on the logged weights, then append the returned cost
and replace the logged weights with the returned array. -/
noncomputable def trainingTick (E : List Op → Ret → ℝ)
    (G : ((ℕ → ℕ → ℝ) → ℝ) → (ℕ → ℕ → ℝ) → ℕ → ℕ → ℝ)
    (A : AdamState → (ℕ → ℕ → ℝ) → (ℕ → ℕ → ℝ) → AdamState × (ℕ → ℕ → ℝ))
    (rngVals : ℕ → ℕ → ℕ → ℝ) (niq nil seed : ℕ)
    (page_log : Option PageLog) (bf pf ad pd dp : ℝ) :
    Except ShapeError PageLog :=
  let log0 := page_log.getD ⟨[], []⟩
  let log1 := if 30 < log0.loss.length then (⟨[], []⟩ : PageLog) else log0
  let s := instructorInit rngVals niq nil seed
  match (stepS E G A s log1.weights bf pf ad pd dp).2 with
  | Except.ok wc =>
      Except.ok ⟨log1.loss ++ [wc.2], serializeWeights wc.1 s.model.n_params⟩
  | Except.error e => Except.error e

/-- C1: for every Instructor and every noise setting (and every behaviour of
the external device, gradient and Adam update), `step` substitutes the stored
initial weights when the argument is empty, the objective it hands the
optimizer is exactly the instructor's `cost` at the resolved weights over the
fixed training domain and targets, and the call performs exactly one optimizer
update on the gradient of that cost, returning the updated weights paired with
the loss evaluated at the pre-step weights (only the optimizer state changes
on the instance). -/
theorem step_one_update_pre_step_loss (E : List Op → Ret → ℝ)
    (G : ((ℕ → ℕ → ℝ) → ℝ) → (ℕ → ℕ → ℝ) → ℕ → ℕ → ℝ)
    (A : AdamState → (ℕ → ℕ → ℝ) → (ℕ → ℕ → ℝ) → AdamState × (ℕ → ℕ → ℝ))
    (s : Instructor) (l : List (List ℝ)) (bf pf ad pd dp : ℝ)
    (h : circuitCheck s.model (resolveStepW s l) = true) :
    (l.length = 0 → resolveStepW s l = s.weights) ∧
    (costS E s (resolveStepW s l) s.y_d bf pf ad pd dp).2
      = Except.ok (costVal E s (resolveStepW s l).entries s.y_d bf pf ad pd dp) ∧
    stepS E G A s l bf pf ad pd dp
      = ({ s with opt :=
            (A s.opt
              (G (fun v => costVal E s v s.y_d bf pf ad pd dp) (resolveStepW s l).entries)
              (resolveStepW s l).entries).1 },
         Except.ok
           ((A s.opt
              (G (fun v => costVal E s v s.y_d bf pf ad pd dp) (resolveStepW s l).entries)
              (resolveStepW s l).entries).2,
            costVal E s (resolveStepW s l).entries s.y_d bf pf ad pd dp)) := by
  refine ⟨fun h0 => by rw [resolveStepW, if_pos h0], ?_, ?_⟩
  · have hr : resolveForwardW s (some (resolveStepW s l)) = resolveStepW s l := rfl
    simp only [costS, forwardS, hr, if_pos h, Except.map, costVal]
  · simp only [stepS, if_pos h]

/-- C4 (amended): for weight inputs that are arrays (not Python lists),
`forward`, `cost` and `step` fail with the shape error exactly when the shape
differs from `(n_layers, n_qubits*3 - 1)`; a nonempty list argument to `step`
is converted by `np.array` to an array of shape (row count, first-row length)
and is checked likewise.  (Weights passed to `forward`/`cost` as Python lists
bypass the check — see the counterexample.) -/
theorem shape_error_iff_array_mismatch (E : List Op → Ret → ℝ)
    (G : ((ℕ → ℕ → ℝ) → ℝ) → (ℕ → ℕ → ℝ) → ℕ → ℕ → ℝ)
    (A : AdamState → (ℕ → ℕ → ℝ) → (ℕ → ℕ → ℝ) → AdamState × (ℕ → ℕ → ℝ))
    (s : Instructor) (x_d y_d : List ℝ) (w : WInput) (l : List (List ℝ))
    (bf pf ad pd dp : ℝ) :
    (w.isList = false →
      (((forwardS E s x_d (some w) bf pf ad pd dp).2).isOk = false
        ↔ w.shape ≠ s.model.n_params)) ∧
    (w.isList = false →
      (((costS E s w y_d bf pf ad pd dp).2).isOk = false
        ↔ w.shape ≠ s.model.n_params)) ∧
    (l.length ≠ 0 →
      (((stepS E G A s l bf pf ad pd dp).2).isOk = false
        ↔ (l.length, l.headI.length) ≠ s.model.n_params)) := by
  have hfwd : ∀ (v : WInput), v.isList = false →
      (((forwardS E s x_d (some v) bf pf ad pd dp).2).isOk = false
        ↔ v.shape ≠ s.model.n_params) := by
    intro v hv
    have hr : resolveForwardW s (some v) = v := rfl
    by_cases hsh : v.shape = s.model.n_params
    · have hc : circuitCheck s.model v = true := by
        simp [circuitCheck, hv, hsh]
      simp [forwardS, hr, hc, Except.isOk, Except.toBool, Except.map, hsh]
    · have hc : circuitCheck s.model v = false := by
        simp [circuitCheck, hv, hsh]
      simp [forwardS, hr, hc, Except.isOk, Except.toBool, Except.map, hsh]
  refine ⟨hfwd w, ?_, ?_⟩
  · intro hv
    have := hfwd w hv
    by_cases hsh : w.shape = s.model.n_params
    · have hc : circuitCheck s.model w = true := by
        simp [circuitCheck, hv, hsh]
      have hr : resolveForwardW s (some w) = w := rfl
      simp [costS, forwardS, hr, hc, Except.isOk, Except.toBool, Except.map, hsh]
    · have hc : circuitCheck s.model w = false := by
        simp [circuitCheck, hv, hsh]
      have hr : resolveForwardW s (some w) = w := rfl
      simp [costS, forwardS, hr, hc, Except.isOk, Except.toBool, Except.map, hsh]
  · intro hl
    have hres : resolveStepW s l = listToArray l := by
      rw [resolveStepW, if_neg hl]
    by_cases hsh : (l.length, l.headI.length) = s.model.n_params
    · have hc : circuitCheck s.model (resolveStepW s l) = true := by
        simp [hres, circuitCheck, listToArray, hsh]
      simp [stepS, hc, Except.isOk, Except.toBool, Except.map, hsh]
    · have hc : circuitCheck s.model (resolveStepW s l) = false := by
        simp [hres, circuitCheck, listToArray, hsh]
      simp [stepS, hc, Except.isOk, Except.toBool, Except.map, hsh]

/-- Counterexample to C4 as stated: a weight input arriving as a plain Python
list, with shape (5, 5) different from the required (4, 5), passes the shape
assertion of `Model._circuit` — the evaluation succeeds with no ShapeError, so
the error is not raised if and only if the shape mismatches. -/
theorem list_weights_bypass_shape_check :
    ((5, 5) : ℕ × ℕ) ≠ Model.n_params ⟨2, 4, false⟩ ∧
    (circuitE ⟨2, 4, false⟩ ⟨true, (5, 5), fun _ _ => (0 : ℝ)⟩ 0 0 0 0 0 0).isOk
      = true :=
  ⟨by decide, rfl⟩

/-- C5: a training tick resets both the logged loss sequence and the logged
weights to empty before appending exactly when the loss length strictly
exceeds 30 — behaving then like a first tick on an empty log — and otherwise
keeps the existing log, appending the step's cost to the loss sequence. -/
theorem training_log_cap (E : List Op → Ret → ℝ)
    (G : ((ℕ → ℕ → ℝ) → ℝ) → (ℕ → ℕ → ℝ) → ℕ → ℕ → ℝ)
    (A : AdamState → (ℕ → ℕ → ℝ) → (ℕ → ℕ → ℝ) → AdamState × (ℕ → ℕ → ℝ))
    (rngVals : ℕ → ℕ → ℕ → ℝ) (niq nil seed : ℕ) (log : PageLog)
    (bf pf ad pd dp : ℝ) :
    (30 < log.loss.length →
      trainingTick E G A rngVals niq nil seed (some log) bf pf ad pd dp
        = trainingTick E G A rngVals niq nil seed none bf pf ad pd dp) ∧
    (¬ 30 < log.loss.length →
      (trainingTick E G A rngVals niq nil seed (some log) bf pf ad pd dp).map
          PageLog.loss
        = ((stepS E G A (instructorInit rngVals niq nil seed) log.weights
              bf pf ad pd dp).2).map (fun wc => log.loss ++ [wc.2])) := by
  constructor
  · intro h
    simp only [trainingTick, Option.getD, if_pos h]
    rfl
  · intro h
    simp only [trainingTick, Option.getD, if_neg h]
    cases hst : (stepS E G A (instructorInit rngVals niq nil seed) log.weights
        bf pf ad pd dp).2 with
    | ok wc => simp [hst, Except.map]
    | error e => simp [hst, Except.map]

/-- Helper for C6: the `data_len` component of the analysis payload is the bin
count `2 * max_freq + 1`. -/
theorem calcHistData_fst (E : List Op → Ret → ℝ) (s : Instructor)
    (w : ℕ → ℕ → ℝ) (bf pf ad pd dp : ℝ) :
    (calcHistData E s w bf pf ad pd dp).1 = 2 * s.max_freq + 1 := by
  simp [calcHistData, coefficientsDFT]

/-- Helper for C6: the magnitude array has exactly `2 * max_freq + 1`
entries. -/
theorem calcHistData_comb_length (E : List Op → Ret → ℝ) (s : Instructor)
    (w : ℕ → ℕ → ℝ) (bf pf ad pd dp : ℝ) :
    (calcHistData E s w bf pf ad pd dp).2.comb.length = 2 * s.max_freq + 1 := by
  simp [calcHistData, coefficientsDFT]

/-- Helper for C6: every combined magnitude `sqrt(r² + i²)` is nonnegative. -/
theorem zipWith_sqrt_nonneg (l1 l2 : List ℝ) :
    ∀ c ∈ List.zipWith (fun r i => Real.sqrt (r ^ 2 + i ^ 2)) l1 l2, 0 ≤ c := by
  induction l1 generalizing l2 with
  | nil => simp
  | cons a t ih =>
    cases l2 with
    | nil => simp
    | cons b t2 =>
      intro c hc
      rcases List.mem_cons.mp hc with h | h
      · exact h ▸ Real.sqrt_nonneg _
      · exact ih t2 c h

/-- C6: for every Instructor built from `(n_qubits, n_layers)`, `calc_hist`
analyzes the forward function over frequencies up to
`max_freq = n_qubits * n_layers` and returns the bin count
`2 * max_freq + 1` together with magnitudes `comb = sqrt(real² + imag²)`, a
list of exactly that many entries, all nonnegative (for `n_qubits = 2,
n_layers = 4` the count is `2*8+1 = 17`, checked in the witness). -/
theorem calc_hist_bins (E : List Op → Ret → ℝ) (rngVals : ℕ → ℕ → ℕ → ℝ)
    (n_qubits n_layers seed : ℕ) (w : WInput) (bf pf ad pd dp : ℝ)
    (h : circuitCheck (instructorInit rngVals n_qubits n_layers seed).model w
      = true) :
    ∃ data : HistData,
      calcHistS E (instructorInit rngVals n_qubits n_layers seed) w bf pf ad pd dp
        = (instructorInit rngVals n_qubits n_layers seed,
           Except.ok (2 * (n_qubits * n_layers) + 1, data)) ∧
      data.comb.length = 2 * (n_qubits * n_layers) + 1 ∧
      ∀ c ∈ data.comb, 0 ≤ c := by
  have hmf : (instructorInit rngVals n_qubits n_layers seed).max_freq
      = n_qubits * n_layers := rfl
  have h1 := calcHistData_fst E (instructorInit rngVals n_qubits n_layers seed)
    w.entries bf pf ad pd dp
  have h2 := calcHistData_comb_length E (instructorInit rngVals n_qubits n_layers seed)
    w.entries bf pf ad pd dp
  rw [hmf] at h1 h2
  refine ⟨(calcHistData E (instructorInit rngVals n_qubits n_layers seed)
    w.entries bf pf ad pd dp).2, ?_, h2, zipWith_sqrt_nonneg _ _⟩
  rw [calcHistS, if_pos h, ← h1]

/-- C9: forward is a pure, deterministic function of its inputs: the instance
state comes back unchanged, repeating the call on the returned state yields
the identical result, and for weights passing the shape check the output is
the list of device evaluations at the domain points, one scalar per point in
input order. -/
theorem forward_pure (E : List Op → Ret → ℝ) (s : Instructor) (x_d : List ℝ)
    (w : Option WInput) (bf pf ad pd dp : ℝ) :
    (forwardS E s x_d w bf pf ad pd dp).1 = s ∧
    (forwardS E ((forwardS E s x_d w bf pf ad pd dp).1) x_d w bf pf ad pd dp).2
      = (forwardS E s x_d w bf pf ad pd dp).2 ∧
    (circuitCheck s.model (resolveForwardW s w) = true →
      (forwardS E s x_d w bf pf ad pd dp).2
        = Except.ok (x_d.map (fun x =>
            E (circuitTape s.model (resolveForwardW s w).entries x bf pf ad pd dp)
              s.model.ret))) := by
  have h1 : (forwardS E s x_d w bf pf ad pd dp).1 = s := by
    rw [forwardS]
    split
    · rfl
    · rfl
  refine ⟨h1, by rw [h1], fun h => ?_⟩
  rw [forwardS]
  simp only [if_pos h]

/-- C10: none of forward, cost, step or calc_hist modifies the instance's
stored `weights`, `x_d` or `y_d` — forward, cost and calc_hist return the
state fully unchanged; step changes only the optimizer state — so on the state
after a step, a step with an empty weight argument still resolves to the same
stored initial weights. -/
theorem instructor_frame (E : List Op → Ret → ℝ)
    (G : ((ℕ → ℕ → ℝ) → ℝ) → (ℕ → ℕ → ℝ) → ℕ → ℕ → ℝ)
    (A : AdamState → (ℕ → ℕ → ℝ) → (ℕ → ℕ → ℝ) → AdamState × (ℕ → ℕ → ℝ))
    (s : Instructor) (x_d y_d : List ℝ) (ow : Option WInput) (w : WInput)
    (l : List (List ℝ)) (bf pf ad pd dp : ℝ) :
    (forwardS E s x_d ow bf pf ad pd dp).1 = s ∧
    (costS E s w y_d bf pf ad pd dp).1 = s ∧
    (calcHistS E s w bf pf ad pd dp).1 = s ∧
    (stepS E G A s l bf pf ad pd dp).1.weights = s.weights ∧
    (stepS E G A s l bf pf ad pd dp).1.x_d = s.x_d ∧
    (stepS E G A s l bf pf ad pd dp).1.y_d = s.y_d ∧
    resolveStepW (stepS E G A s l bf pf ad pd dp).1 [] = s.weights := by
  have hfwd : (forwardS E s x_d ow bf pf ad pd dp).1 = s := by
    rw [forwardS]
    split
    · rfl
    · rfl
  have hstep : (stepS E G A s l bf pf ad pd dp).1.weights = s.weights ∧
      (stepS E G A s l bf pf ad pd dp).1.x_d = s.x_d ∧
      (stepS E G A s l bf pf ad pd dp).1.y_d = s.y_d := by
    rw [stepS]
    split
    · exact ⟨rfl, rfl, rfl⟩
    · exact ⟨rfl, rfl, rfl⟩
  refine ⟨hfwd, ?_, ?_, hstep.1, hstep.2.1, hstep.2.2, ?_⟩
  · show (forwardS E s s.x_d (some w) bf pf ad pd dp).1 = s
    rw [forwardS]
    split
    · rfl
    · rfl
  · rw [calcHistS]
    split
    · rfl
    · rfl
  · have hre : resolveStepW (stepS E G A s l bf pf ad pd dp).1 []
        = (stepS E G A s l bf pf ad pd dp).1.weights := by
      rw [resolveStepW]
      rfl
    rw [hre]
    exact hstep.1

/-- A concrete one-qubit, one-layer instructor state (array weights of the
matching shape `(1, 2)`, one-point domain) used to instantiate the
universally quantified theorems at concrete inputs. -/
noncomputable def sampleInstructor : Instructor :=
  ⟨1, ⟨1, 1, false⟩, [0], [0], ⟨false, (1, 2), fun _ _ => 0⟩,
    ⟨1, fun _ _ => 0, fun _ _ => 0, 0⟩⟩

/-- A trivial device semantics used for concrete instantiation. -/
noncomputable def zeroE : List Op → Ret → ℝ := fun _ _ => 0

/-- A trivial gradient oracle used for concrete instantiation. -/
noncomputable def zeroG : ((ℕ → ℕ → ℝ) → ℝ) → (ℕ → ℕ → ℝ) → ℕ → ℕ → ℝ :=
  fun _ _ => fun _ _ => 0

/-- A trivial optimizer application used for concrete instantiation. -/
noncomputable def zeroA :
    AdamState → (ℕ → ℕ → ℝ) → (ℕ → ℕ → ℝ) → AdamState × (ℕ → ℕ → ℝ) :=
  fun o _ _ => (o, fun _ _ => 0)

/-- Trivial generator draws used for concrete instantiation. -/
noncomputable def zeroRng : ℕ → ℕ → ℕ → ℝ := fun _ _ _ => 0

/-- Witness for C1: at the concrete instructor, an empty weight argument and
zero noise, the hypotheses hold and the step contract follows. -/
theorem step_one_update_pre_step_loss_witness :
    circuitCheck sampleInstructor.model (resolveStepW sampleInstructor []) = true ∧
    resolveStepW sampleInstructor [] = sampleInstructor.weights ∧
    (costS zeroE sampleInstructor (resolveStepW sampleInstructor [])
        sampleInstructor.y_d 0 0 0 0 0).2
      = Except.ok (costVal zeroE sampleInstructor
          (resolveStepW sampleInstructor []).entries sampleInstructor.y_d 0 0 0 0 0) ∧
    stepS zeroE zeroG zeroA sampleInstructor [] 0 0 0 0 0
      = ({ sampleInstructor with opt :=
            (zeroA sampleInstructor.opt
              (zeroG (fun v => costVal zeroE sampleInstructor v sampleInstructor.y_d 0 0 0 0 0)
                (resolveStepW sampleInstructor []).entries)
              (resolveStepW sampleInstructor []).entries).1 },
         Except.ok
           ((zeroA sampleInstructor.opt
              (zeroG (fun v => costVal zeroE sampleInstructor v sampleInstructor.y_d 0 0 0 0 0)
                (resolveStepW sampleInstructor []).entries)
              (resolveStepW sampleInstructor []).entries).2,
            costVal zeroE sampleInstructor (resolveStepW sampleInstructor []).entries
              sampleInstructor.y_d 0 0 0 0 0)) :=
  ⟨by decide,
   (step_one_update_pre_step_loss zeroE zeroG zeroA sampleInstructor [] 0 0 0 0 0
     (by decide)).1 rfl,
   (step_one_update_pre_step_loss zeroE zeroG zeroA sampleInstructor [] 0 0 0 0 0
     (by decide)).2.1,
   (step_one_update_pre_step_loss zeroE zeroG zeroA sampleInstructor [] 0 0 0 0 0
     (by decide)).2.2⟩

/-- Witness for C4's amended theorem: at the concrete instructor, an array
weight input of matching shape and a nonempty list argument, the hypotheses
hold and the failure characterizations follow. -/
theorem shape_error_iff_array_mismatch_witness :
    (⟨false, (1, 2), fun _ _ => (0 : ℝ)⟩ : WInput).isList = false ∧
    (((forwardS zeroE sampleInstructor [0]
        (some ⟨false, (1, 2), fun _ _ => 0⟩) 0 0 0 0 0).2).isOk = false
      ↔ (⟨false, (1, 2), fun _ _ => (0 : ℝ)⟩ : WInput).shape
          ≠ sampleInstructor.model.n_params) ∧
    (((costS zeroE sampleInstructor ⟨false, (1, 2), fun _ _ => 0⟩ [0] 0 0 0 0 0).2).isOk
        = false
      ↔ (⟨false, (1, 2), fun _ _ => (0 : ℝ)⟩ : WInput).shape
          ≠ sampleInstructor.model.n_params) ∧
    ([[(0 : ℝ), 0]] : List (List ℝ)).length ≠ 0 ∧
    (((stepS zeroE zeroG zeroA sampleInstructor [[0, 0]] 0 0 0 0 0).2).isOk = false
      ↔ (([[(0 : ℝ), 0]] : List (List ℝ)).length,
          ([[(0 : ℝ), 0]] : List (List ℝ)).headI.length)
          ≠ sampleInstructor.model.n_params) :=
  ⟨rfl,
   (shape_error_iff_array_mismatch zeroE zeroG zeroA sampleInstructor [0] [0]
     ⟨false, (1, 2), fun _ _ => 0⟩ [[0, 0]] 0 0 0 0 0).1 rfl,
   (shape_error_iff_array_mismatch zeroE zeroG zeroA sampleInstructor [0] [0]
     ⟨false, (1, 2), fun _ _ => 0⟩ [[0, 0]] 0 0 0 0 0).2.1 rfl,
   by decide,
   (shape_error_iff_array_mismatch zeroE zeroG zeroA sampleInstructor [0] [0]
     ⟨false, (1, 2), fun _ _ => 0⟩ [[0, 0]] 0 0 0 0 0).2.2 (by decide)⟩

/-- Witness for C5: a log of 31 losses triggers the reset and behaves like a
first tick; an empty log appends without resetting. -/
theorem training_log_cap_witness :
    30 < (List.replicate 31 (0 : ℝ)).length ∧
    trainingTick zeroE zeroG zeroA zeroRng 1 1 0
        (some ⟨List.replicate 31 0, []⟩) 0 0 0 0 0
      = trainingTick zeroE zeroG zeroA zeroRng 1 1 0 none 0 0 0 0 0 ∧
    ¬ 30 < ((⟨[], []⟩ : PageLog)).loss.length ∧
    (trainingTick zeroE zeroG zeroA zeroRng 1 1 0 (some ⟨[], []⟩) 0 0 0 0 0).map
        PageLog.loss
      = ((stepS zeroE zeroG zeroA (instructorInit zeroRng 1 1 0)
            (⟨[], []⟩ : PageLog).weights 0 0 0 0 0).2).map
          (fun wc => (⟨[], []⟩ : PageLog).loss ++ [wc.2]) :=
  ⟨by decide,
   (training_log_cap zeroE zeroG zeroA zeroRng 1 1 0
     ⟨List.replicate 31 0, []⟩ 0 0 0 0 0).1 (by decide),
   by decide,
   (training_log_cap zeroE zeroG zeroA zeroRng 1 1 0 ⟨[], []⟩ 0 0 0 0 0).2
     (by decide)⟩

/-- Witness for C6: the instructor built from `(n_qubits, n_layers) = (2, 4)`
with a passing weight input yields the bin count `2*(2*4)+1 = 17`. -/
theorem calc_hist_bins_witness :
    circuitCheck (instructorInit zeroRng 2 4 100).model
        ⟨true, (0, 0), fun _ _ => (0 : ℝ)⟩ = true ∧
    2 * (2 * 4) + 1 = 17 ∧
    (∃ data : HistData,
      calcHistS zeroE (instructorInit zeroRng 2 4 100)
          ⟨true, (0, 0), fun _ _ => 0⟩ 0 0 0 0 0
        = (instructorInit zeroRng 2 4 100, Except.ok (2 * (2 * 4) + 1, data)) ∧
      data.comb.length = 2 * (2 * 4) + 1 ∧
      ∀ c ∈ data.comb, 0 ≤ c) :=
  ⟨by decide, by decide,
   calc_hist_bins zeroE zeroRng 2 4 100 ⟨true, (0, 0), fun _ _ => 0⟩ 0 0 0 0 0
     (by decide)⟩

/-- Witness for C9: at the concrete instructor with its stored weights, the
purity facts hold and the output is the pointwise device evaluation. -/
theorem forward_pure_witness :
    circuitCheck sampleInstructor.model (resolveForwardW sampleInstructor none)
        = true ∧
    (forwardS zeroE sampleInstructor [0] none 0 0 0 0 0).1 = sampleInstructor ∧
    (forwardS zeroE ((forwardS zeroE sampleInstructor [0] none 0 0 0 0 0).1)
        [0] none 0 0 0 0 0).2
      = (forwardS zeroE sampleInstructor [0] none 0 0 0 0 0).2 ∧
    (forwardS zeroE sampleInstructor [0] none 0 0 0 0 0).2
      = Except.ok ([0].map (fun x =>
          zeroE (circuitTape sampleInstructor.model
            (resolveForwardW sampleInstructor none).entries x 0 0 0 0 0)
            sampleInstructor.model.ret)) :=
  ⟨by decide,
   (forward_pure zeroE sampleInstructor [0] none 0 0 0 0 0).1,
   (forward_pure zeroE sampleInstructor [0] none 0 0 0 0 0).2.1,
   (forward_pure zeroE sampleInstructor [0] none 0 0 0 0 0).2.2 (by decide)⟩

end MTQ
